import Mathlib

/-!
Verification of the `k8s-controller` CLI core (list-deployments pipeline).

The Go sources are shallowly embedded as Lean definitions:

* `cmd/list.go` (current revision, with YAML output): `validateOutputFormat`,
  `validateNamespace`, `formatImages`, `truncateString`, the JSON/YAML
  envelope builders, `enhanceK8sError`, and the control flow of
  `runListDeployments`.
* `pkg/k8s/client.go` (current revision): `Client.TestConnection`'s context
  selection and `extractImages` / `collectContainerImages` /
  `convertImageSetToSlice`.

Go strings are embedded as Lean `String` where only whole-string equality
and substring search matter, and as UTF-8 byte lists (`List UInt8`) where
Go's byte-indexed slicing matters (`truncateString`).  Go `error` results
are embedded as `Except String Unit` carrying the formatted message, with
`fmt.Errorf("...: %w", err)` embedded as string concatenation of the prefix
and the wrapped error's message.  A Go `map[string]struct{}` is embedded as
its insertion-ordered key list, and iteration over it ranges over an
arbitrary permutation of the keys, because Go leaves map iteration order
unspecified.
-/

namespace K8sController

/-- Embedding of `validateOutputFormat` from `cmd/list.go`:
`switch format { case "table", "json", "yaml": return nil; default: error }`. -/
def validateOutputFormat (format : String) : Except String Unit :=
  if format = "table" ∨ format = "json" ∨ format = "yaml" then
    .ok ()
  else
    .error ("unsupported format '" ++ format ++ "', must be one of: table, json, yaml")

/-- The error message produced by `validateOutputFormat` for a rejected format. -/
def errUnsupportedFormat (format : String) : String :=
  "unsupported format '" ++ format ++ "', must be one of: table, json, yaml"

/-- One nanosecond-resolution duration, as Go's `time.Duration` (int64). -/
abbrev GoDuration := Int

/-- Ten seconds in nanoseconds, Go's `10 * time.Second`. -/
def tenSeconds : GoDuration := 10 * 1000000000

/-- Three seconds in nanoseconds, Go's `3 * time.Second`. -/
def threeSeconds : GoDuration := 3 * 1000000000

/-- A Go `context.Context`, abstracted to the one observable the code under
verification inspects: `ctx.Deadline()`, i.e. the remaining time until the
deadline (`time.Until(deadline)`), or `none` when the context carries no
deadline. -/
structure GoContext where
  remaining : Option GoDuration
deriving DecidableEq, Repr

/-- Embedding of Go's `context.WithTimeout(parent, d)`: the derived context's
deadline is `now.Add(d)`, except that a parent deadline that is already
earlier is kept (`context.WithDeadline` semantics). -/
def withTimeout (parent : GoContext) (d : GoDuration) : GoContext :=
  { remaining := some (match parent.remaining with
      | none => d
      | some r => min r d) }

/-- Embedding of the context selection in `Client.TestConnection`
(`pkg/k8s/client.go`):

`testCtx := ctx; if deadline, ok := ctx.Deadline(); !ok || time.Until(deadline) > 10*time.Second { testCtx, cancel = context.WithTimeout(ctx, 10*time.Second) }`.

Returns the context actually passed to the namespace listing call. -/
def testConnectionPassedCtx (ctx : GoContext) : GoContext :=
  match ctx.remaining with
  | none => withTimeout ctx tenSeconds
  | some r => if r > tenSeconds then withTimeout ctx tenSeconds else ctx

/-- The namespace listing call issued by `TestConnection`: which context it
receives and the `metav1.ListOptions{Limit: 1}` it is given. -/
structure NamespaceListCall where
  ctx : GoContext
  limit : Int
deriving DecidableEq, Repr

/-- Embedding of the API call made inside `Client.TestConnection`:
`c.clientset.CoreV1().Namespaces().List(testCtx, metav1.ListOptions{Limit: 1})`. -/
def testConnectionListCall (ctx : GoContext) : NamespaceListCall :=
  { ctx := testConnectionPassedCtx ctx, limit := 1 }

/-- Modelled from the spec's timeout policy wording, for comparison with the
code: "if the caller's context already carries a deadline no more than 10
seconds out, it is used unmodified; otherwise a derived context with a
10-second timeout is created and is the one passed to the underlying call". -/
def specTestConnectionCtx (ctx : GoContext) : GoContext :=
  match ctx.remaining with
  | some r => if r ≤ tenSeconds then ctx else withTimeout ctx tenSeconds
  | none => withTimeout ctx tenSeconds

/-- A `corev1.Container`, restricted to the fields `extractImages` reads. -/
structure Container where
  name : String
  image : String
deriving DecidableEq, Repr

/-- A `corev1.PodSpec`, restricted to its two container lists. -/
structure PodSpec where
  containers : List Container
  initContainers : List Container
deriving DecidableEq, Repr

/-- A `corev1.PodTemplateSpec`, restricted to its pod spec. -/
structure PodTemplateSpec where
  spec : PodSpec
deriving DecidableEq, Repr

/-- An `appsv1.DeploymentSpec`, restricted to its pod template. -/
structure DeploymentSpec where
  template : PodTemplateSpec
deriving DecidableEq, Repr

/-- An `appsv1.Deployment`, restricted to the fields `extractImages` reads. -/
structure Deployment where
  spec : DeploymentSpec
deriving DecidableEq, Repr

/-- The deployment's regular container list, `deployment.Spec.Template.Spec.Containers`. -/
def podContainers (d : Deployment) : List Container :=
  d.spec.template.spec.containers

/-- The deployment's init container list, `deployment.Spec.Template.Spec.InitContainers`. -/
def podInitContainers (d : Deployment) : List Container :=
  d.spec.template.spec.initContainers

/-- Insertion into a Go `map[string]struct{}`, embedded as its
insertion-ordered key list: `imageSet[k] = struct{}{}` adds `k` to the key
set when absent and otherwise leaves the key set unchanged. -/
def goMapInsert (s : List String) (k : String) : List String :=
  if k ∈ s then s else s ++ [k]

/-- One loop iteration of `collectContainerImages`:
`if container.Image != "" { imageSet[container.Image] = struct{}{} }`. -/
def collectStep (s : List String) (c : Container) : List String :=
  if c.image ≠ "" then goMapInsert s c.image else s

/-- Embedding of `collectContainerImages` (`pkg/k8s/client.go`): runs
`collectStep` over the container list, threading the image set through. -/
def collectContainerImages (containers : List Container) (imageSet : List String) : List String :=
  containers.foldl collectStep imageSet

/-- The key set (in insertion order) of the map built by `extractImages`:
regular containers are collected first, then init containers. -/
def extractImagesKeys (d : Deployment) : List String :=
  collectContainerImages (podInitContainers d) (collectContainerImages (podContainers d) [])

/-- Embedding of `extractImages` composed with `convertImageSetToSlice`
(`pkg/k8s/client.go`): `convertImageSetToSlice` ranges over the Go map, and
Go leaves map iteration order unspecified, so the call can produce any
permutation of the map's key set.  `extractImagesCanProduce d out` states
that `out` is a possible return value of `extractImages(d)`. -/
def extractImagesCanProduce (d : Deployment) (out : List String) : Prop :=
  out.Perm (extractImagesKeys d)

instance (d : Deployment) (out : List String) : Decidable (extractImagesCanProduce d out) :=
  List.decidablePerm out (extractImagesKeys d)

/-- The same deployment with the roles of the two container lists exchanged. -/
def swapContainerLists (d : Deployment) : Deployment :=
  { spec := { template := { spec :=
    { containers := podInitContainers d, initContainers := podContainers d } } } }

/-- A deployment whose regular containers carry exactly the given images and
which has no init containers; used to state idempotence of image extraction. -/
def deploymentOfImages (images : List String) : Deployment :=
  { spec := { template := { spec :=
    { containers := images.map (fun img => { name := "", image := img }),
      initContainers := [] } } } }

/-- First-occurrence deduplication of a list of strings. -/
def dedupFirst (l : List String) : List String :=
  l.foldl goMapInsert []

/-- Modelled from the spec's wording, for comparison with the code:
"images = de-duplicated union of init-container and regular-container image
references, preserving only non-empty strings, order of first occurrence". -/
def specFirstOccurrenceImages (d : Deployment) : List String :=
  dedupFirst (((podContainers d ++ podInitContainers d).map Container.image).filter
    (fun s => decide (s ≠ "")))

/-- The deployment of the spec's `[a, a, b, "", c]` image-extraction example,
with images `nginx:1.21, nginx:1.21, redis:6.2` in the regular containers and
`"", postgres:13` in the init containers. -/
def exampleDeployment : Deployment :=
  { spec := { template := { spec :=
    { containers :=
        [{ name := "web", image := "nginx:1.21" },
         { name := "web-copy", image := "nginx:1.21" },
         { name := "cache", image := "redis:6.2" }],
      initContainers :=
        [{ name := "blank", image := "" },
         { name := "db-init", image := "postgres:13" }] } } } }

/-- A two-image deployment used to exhibit the nondeterministic ordering of
`extractImages`. -/
def orderDeployment : Deployment :=
  { spec := { template := { spec :=
    { containers :=
        [{ name := "web", image := "nginx:1.21" },
         { name := "db", image := "redis:6.2" }],
      initContainers := [] } } } }

/-- UTF-8 byte length of a character list; Go's `len(ns)` on the string whose
characters these are. -/
def goByteLen : List Char → Nat
  | [] => 0
  | c :: cs => c.utf8Size + goByteLen cs

/-- Embedding of `isValidNamespaceChar` (`cmd/list.go`):
`(r >= 'a' && r <= 'z') || (r >= '0' && r <= '9') || r == '-'`. -/
def isValidNamespaceChar (r : Char) : Bool :=
  (decide ('a' ≤ r) && decide (r ≤ 'z')) || (decide ('0' ≤ r) && decide (r ≤ '9')) || r == '-'

/-- Error message of `validateNamespaceLength`. -/
def errNsTooLong : String :=
  "namespace name too long (max 63 characters)"

/-- Error message of `validateCharacter` for an invalid character `r`
(Go renders `%c` as the character itself). -/
def errNsInvalidChar (r : Char) : String :=
  "namespace name contains invalid character '" ++ r.toString ++
    "' (must be lowercase alphanumeric with hyphens)"

/-- Error message of `validateHyphenPlacement`. -/
def errNsHyphen : String :=
  "namespace name cannot start or end with hyphen"

/-- Embedding of the `for i, r := range ns` loop of
`validateNamespaceCharacters` (`cmd/list.go`): `i` is the UTF-8 byte offset
of `r` within the string and `total` is the string's byte length; each
character is checked by `validateCharacter` first and by
`validateHyphenPlacement` (`r == '-' && (pos == 0 || pos == length-1)`)
second. -/
def scanNamespaceChars : List Char → Nat → Nat → Except String Unit
  | [], _, _ => .ok ()
  | r :: rest, i, total =>
    if ¬ isValidNamespaceChar r then .error (errNsInvalidChar r)
    else if r = '-' ∧ (i = 0 ∨ i = total - 1) then .error errNsHyphen
    else scanNamespaceChars rest (i + r.utf8Size) total

/-- Embedding of `validateNamespace` (`cmd/list.go`): empty namespace is
accepted; otherwise `validateNamespaceLength` (`len(ns) > 63`, bytes) runs
first, then the character scan. -/
def validateNamespace (ns : String) : Except String Unit :=
  if ns = "" then .ok ()
  else if goByteLen ns.toList > 63 then .error errNsTooLong
  else scanNamespaceChars ns.toList 0 (goByteLen ns.toList)

/-- The character scan restated over character positions (`j` is the index
of the current character among the characters, `n` the number of
characters), used to state the claim's left-to-right first-violation rule. -/
def specScanNamespaceChars : List Char → Nat → Nat → Except String Unit
  | [], _, _ => .ok ()
  | r :: rest, j, n =>
    if ¬ isValidNamespaceChar r then .error (errNsInvalidChar r)
    else if r = '-' ∧ (j = 0 ∨ j = n - 1) then .error errNsHyphen
    else specScanNamespaceChars rest (j + 1) n

/-- Position `j` (out of `n` characters) holds an unobjectionable character:
the character is valid and, if it is a hyphen, it is neither the first nor
the last character. -/
def nsPosOk (n j : Nat) (r : Char) : Prop :=
  isValidNamespaceChar r = true ∧ (r = '-' → j ≠ 0 ∧ j ≠ n - 1)

instance (n j : Nat) (r : Char) : Decidable (nsPosOk n j r) :=
  inferInstanceAs (Decidable (_ ∧ _))

instance : DecidableEq (Except String Unit) := fun a b =>
  match a, b with
  | .ok (), .ok () => isTrue rfl
  | .error e, .error f =>
    if h : e = f then isTrue (by rw [h]) else isFalse (fun hc => h (by injection hc))
  | .ok _, .error _ => isFalse (fun hc => Except.noConfusion hc)
  | .error _, .ok _ => isFalse (fun hc => Except.noConfusion hc)

/-- The `Replicas` sub-record of `DeploymentInfo` (`pkg/k8s/client.go`).
Go's `int32` counters are embedded as integers; no arithmetic is performed
on them here, so overflow is not in play. -/
structure ReplicasInfo where
  desired : Int
  available : Int
  ready : Int
deriving DecidableEq, Repr

/-- Embedding of `DeploymentInfo` (`pkg/k8s/client.go`).  The Go field
`Namespace` is named `nsName` because `namespace` is reserved in Lean;
`Age` (a `time.Duration`) and `CreatedAt` (a timestamp) are embedded as
integer nanosecond counts. -/
structure DeploymentInfo where
  name : String
  nsName : String
  replicas : ReplicasInfo
  age : GoDuration
  images : List String
  createdAt : Int
deriving DecidableEq, Repr

/-- The anonymous envelope struct built by `formatDeploymentJSON` and
`formatDeploymentYAML` (`cmd/list.go`): kind, apiVersion, items, count. -/
structure DeploymentListEnvelope where
  kind : String
  apiVersion : String
  items : List DeploymentInfo
  count : Nat
deriving DecidableEq, Repr

/-- Embedding of the envelope construction in `formatDeploymentJSON`
(`cmd/list.go`): `{Kind: "DeploymentList", APIVersion: "apps/v1", Items: deployments, Count: len(deployments)}`;
the JSON serialization of this value is delegated to `encoding/json`. -/
def formatDeploymentJSONEnvelope (deployments : List DeploymentInfo) : DeploymentListEnvelope :=
  { kind := "DeploymentList"
    apiVersion := "apps/v1"
    items := deployments
    count := deployments.length }

/-- Embedding of the envelope construction in `formatDeploymentYAML`
(`cmd/list.go`), identical to the JSON one; the YAML serialization of this
value is delegated to `gopkg.in/yaml.v3`. -/
def formatDeploymentYAMLEnvelope (deployments : List DeploymentInfo) : DeploymentListEnvelope :=
  { kind := "DeploymentList"
    apiVersion := "apps/v1"
    items := deployments
    count := deployments.length }

/-- Does the second character list start with the first? -/
def leadMatch : List Char → List Char → Bool
  | [], _ => true
  | _ :: _, [] => false
  | p :: ps, c :: cs => p == c && leadMatch ps cs

/-- Does the first character list contain the second as a contiguous run? -/
def charsContains : List Char → List Char → Bool
  | [], sub => sub.isEmpty
  | c :: rest, sub => leadMatch sub (c :: rest) || charsContains rest sub

/-- Embedding of Go's `strings.Contains(s, sub)`.  Go searches bytes, but a
byte-aligned occurrence of valid UTF-8 always falls on character
boundaries, so character-level search coincides with it. -/
def goContains (s sub : String) : Bool :=
  charsContains s.toList sub.toList

/-- Message of the connection-refused branch of `enhanceK8sError`
(`cmd/list.go`); `%w` splices the original error's message at the end. -/
def errConnRefused (orig : String) : String :=
  "failed to connect to Kubernetes API server - is the cluster running and accessible? " ++ orig

/-- Message of the forbidden branch of `enhanceK8sError`. -/
def errForbidden (orig : String) : String :=
  "insufficient permissions to list deployments - check your RBAC configuration: " ++ orig

/-- Message of the not-found branch of `enhanceK8sError`. -/
def errNsNotFound (ns orig : String) : String :=
  "namespace '" ++ ns ++ "' not found: " ++ orig

/-- Message of the generic fallback branch of `enhanceK8sError`. -/
def errGenericList (orig : String) : String :=
  "failed to list deployments: " ++ orig

/-- Embedding of `enhanceK8sError` (`cmd/list.go`): classifies the listing
failure by substring, in source order, and rewrites the message; every
branch wraps the original error's message `orig`.  `ns` is the
package-level `namespace` flag value. -/
def enhanceK8sError (ns orig : String) : String :=
  if goContains orig "connection refused" then errConnRefused orig
  else if goContains orig "forbidden" then errForbidden orig
  else if goContains orig "not found" && ns != "" then errNsNotFound ns orig
  else errGenericList orig

/-- Embedding of `validateListParameters` (`cmd/list.go`): the output format
is validated first, then the namespace; each failure is wrapped with its
`fmt.Errorf` prefix and returned at once. -/
def validateListParameters (format ns : String) : Except String Unit :=
  match validateOutputFormat format with
  | .error e => .error ("invalid output format: " ++ e)
  | .ok () =>
    match validateNamespace ns with
    | .error e => .error ("invalid namespace: " ++ e)
    | .ok () => .ok ()

/-- The outcomes of the two external collaborators `runListDeployments`
talks to: `k8s.CreateClient` and `Client.ListDeployments`.  Both are
network-dependent, so their results are oracle inputs to the embedding. -/
structure K8sOracle where
  createResult : Except String Unit
  listResult : Except String (List DeploymentInfo)

/-- The observable input/output actions of `runListDeployments`, in the
order performed: client construction, the listing API call, and rendering. -/
inductive SideEffect where
  | createClient
  | apiList
  | render
deriving DecidableEq, Repr

/-- Embedding of `formatDeploymentOutput` (`cmd/list.go`): dispatch on the
format string; rendering itself (writing to stdout) is modelled as
succeeding, and an unsupported format reaching this point is the loud
internal error of the `default` branch. -/
def formatDeploymentOutput (format : String) : Except String Unit :=
  if format = "json" then .ok ()
  else if format = "yaml" then .ok ()
  else if format = "table" then .ok ()
  else .error ("unsupported output format: " ++ format)

/-- Embedding of the control flow of `runListDeployments` (`cmd/list.go`):
validate parameters, create the client, fetch the deployments (classifying
failures via `enhanceK8sError`), then format.  Returns the result together
with the trace of side effects attempted, in order. -/
def runListDeployments (format ns : String) (o : K8sOracle) :
    Except String Unit × List SideEffect :=
  match validateListParameters format ns with
  | .error e => (.error e, [])
  | .ok () =>
    match o.createResult with
    | .error e => (.error e, [.createClient])
    | .ok () =>
      match o.listResult with
      | .error e => (.error (enhanceK8sError ns e), [.createClient, .apiList])
      | .ok _ => (formatDeploymentOutput format, [.createClient, .apiList, .render])

/-- An oracle whose collaborators both succeed, used for concrete runs. -/
def sampleOracle : K8sOracle :=
  { createResult := .ok (), listResult := .ok [] }

/-- A Go string as its UTF-8 bytes; Go indexes and slices strings by byte. -/
abbrev GoBytes := List UInt8

/-- The UTF-8 bytes of a string literal: the byte sequence of
`String.toUTF8`, which is `a.data.flatMap utf8EncodeChar`. -/
def strBytes (s : String) : GoBytes :=
  s.toList.flatMap String.utf8EncodeChar

/-- The three-byte ellipsis `"..."` appended by `truncateString`. -/
def ellipsisBytes : GoBytes :=
  strBytes "..."

/-- Go's slice expression `s[:k]` on a string: yields the first `k` bytes,
and panics when `k` is negative or exceeds `len(s)`. -/
def goSliceTo (s : GoBytes) (k : Int) : Option GoBytes :=
  if 0 ≤ k ∧ k ≤ (s.length : Int) then some (s.take k.toNat) else none

/-- Embedding of `truncateString` (`cmd/list.go`): return `s` unchanged when
it fits, hard-cut without ellipsis for `maxLen <= 3`, otherwise cut to
`maxLen-3` bytes and append `"..."`.  `none` models a Go slice panic. -/
def truncateString (s : GoBytes) (maxLen : Int) : Option GoBytes :=
  if (s.length : Int) ≤ maxLen then some s
  else if maxLen ≤ 3 then goSliceTo s maxLen
  else (goSliceTo s (maxLen - 3)).map (fun p => p ++ ellipsisBytes)

/-- The byte string `","` used by `strings.Join(result, ",")`. -/
def commaBytes : GoBytes :=
  strBytes ","

/-- The placeholder `"<none>"` rendered for an empty image list. -/
def noneBytes : GoBytes :=
  strBytes "<none>"

/-- Embedding of `formatImages` (`cmd/list.go`): `"<none>"` for an empty
list; a single image truncated to 40; two or three images each truncated to
30 and joined with commas; more than three shows the first two truncated to
25 plus a `+N more` count.  The `Option` threads the (never occurring)
slice-panic case of `truncateString` through. -/
def formatImages (images : List GoBytes) : Option GoBytes :=
  if images.length = 0 then some noneBytes
  else if images.length = 1 then truncateString (images.headD []) 40
  else if images.length ≤ 3 then
    (images.mapM (fun image => truncateString image 30)).map
      (fun result => List.intercalate commaBytes result)
  else
    (truncateString (images.headD []) 25).bind (fun first =>
      (truncateString ((images.drop 1).headD []) 25).map (fun second =>
        first ++ commaBytes ++ second ++ strBytes " +" ++
          strBytes (toString (images.length - 2)) ++ strBytes " more"))

/-- A sample long image reference used as a concrete truncation input. -/
def sampleImageBytes : GoBytes :=
  strBytes "registry.example.com/service:v1.2.3"

end K8sController

namespace K8sController

/-- Unfolding `collectContainerImages` over a cons cell. -/
theorem collectContainerImages_cons (c : Container) (cs : List Container) (s0 : List String) :
    collectContainerImages (c :: cs) s0 = collectContainerImages cs (collectStep s0 c) :=
  rfl

/-- Membership in a Go map key list after one insertion. -/
theorem mem_goMapInsert {s : List String} {k x : String} :
    x ∈ goMapInsert s k ↔ x ∈ s ∨ x = k := by
  unfold goMapInsert
  split
  · next h => simp only [iff_self_or]; rintro rfl; exact h
  · simp

/-- Insertion into a Go map key list preserves distinctness of the keys. -/
theorem nodup_goMapInsert {s : List String} (k : String) (h : s.Nodup) :
    (goMapInsert s k).Nodup := by
  unfold goMapInsert
  split
  · exact h
  · next hk =>
    refine List.Nodup.append h (List.nodup_singleton k) ?_
    intro x hx hxk
    cases List.mem_singleton.mp hxk
    exact hk hx

/-- Membership in the image set built by `collectContainerImages`. -/
theorem mem_collectContainerImages {x : String} :
    ∀ (cs : List Container) (s0 : List String),
      x ∈ collectContainerImages cs s0 ↔
        x ∈ s0 ∨ (x ≠ "" ∧ ∃ c ∈ cs, c.image = x) := by
  intro cs
  induction cs with
  | nil => intro s0; simp [collectContainerImages]
  | cons c cs ih =>
    intro s0
    rw [collectContainerImages_cons, ih]
    unfold collectStep
    by_cases hc : c.image = ""
    · rw [if_neg (not_not_intro hc)]
      constructor
      · rintro (h | ⟨hx, c', hc', himg⟩)
        · exact Or.inl h
        · exact Or.inr ⟨hx, c', List.mem_cons_of_mem _ hc', himg⟩
      · rintro (h | ⟨hx, c', hc', himg⟩)
        · exact Or.inl h
        · rcases List.mem_cons.mp hc' with rfl | hcc
          · have : x = "" := by rw [← himg, hc]
            exact absurd this hx
          · exact Or.inr ⟨hx, c', hcc, himg⟩
    · rw [if_pos hc, mem_goMapInsert]
      constructor
      · rintro ((h | heq) | ⟨hx, c', hc', himg⟩)
        · exact Or.inl h
        · exact Or.inr ⟨heq ▸ hc, c, List.mem_cons_self _ _, heq.symm⟩
        · exact Or.inr ⟨hx, c', List.mem_cons_of_mem _ hc', himg⟩
      · rintro (h | ⟨hx, c', hc', himg⟩)
        · exact Or.inl (Or.inl h)
        · rcases List.mem_cons.mp hc' with rfl | hcc
          · exact Or.inl (Or.inr himg.symm)
          · exact Or.inr ⟨hx, c', hcc, himg⟩

/-- The image set built by `collectContainerImages` has distinct keys. -/
theorem nodup_collectContainerImages :
    ∀ (cs : List Container) (s0 : List String), s0.Nodup →
      (collectContainerImages cs s0).Nodup := by
  intro cs
  induction cs with
  | nil => intro s0 h; exact h
  | cons c cs ih =>
    intro s0 h
    rw [collectContainerImages_cons]
    apply ih
    unfold collectStep
    split
    · exact nodup_goMapInsert _ h
    · exact h

/-- Membership in the full image key set of a deployment. -/
theorem mem_extractImagesKeys {d : Deployment} {x : String} :
    x ∈ extractImagesKeys d ↔
      x ≠ "" ∧ ((∃ c ∈ podContainers d, c.image = x) ∨ (∃ c ∈ podInitContainers d, c.image = x)) := by
  unfold extractImagesKeys
  rw [mem_collectContainerImages, mem_collectContainerImages]
  constructor
  · rintro ((h | ⟨hx, h⟩) | ⟨hx, h⟩)
    · exact absurd h (List.not_mem_nil x)
    · exact ⟨hx, Or.inl h⟩
    · exact ⟨hx, Or.inr h⟩
  · rintro ⟨hx, h | h⟩
    · exact Or.inl (Or.inr ⟨hx, h⟩)
    · exact Or.inr ⟨hx, h⟩

/-- Collecting a distinct list of non-empty images reproduces it verbatim. -/
theorem collectContainerImages_fresh :
    ∀ (l : List String) (s0 : List String), (∀ x ∈ l, x ≠ "") → (s0 ++ l).Nodup →
      collectContainerImages (l.map fun img => { name := "", image := img }) s0 = s0 ++ l := by
  intro l
  induction l with
  | nil => intro s0 _ _; simp [collectContainerImages]
  | cons a l ih =>
    intro s0 hne hnd
    have ha : a ≠ "" := hne a (List.mem_cons_self _ _)
    have hmem : a ∉ s0 := fun hmem =>
      (List.nodup_append.mp hnd).2.2 hmem (List.mem_cons_self _ _)
    rw [List.map_cons, collectContainerImages_cons]
    have hstep : collectStep s0 { name := "", image := a } = s0 ++ [a] := by
      unfold collectStep goMapInsert
      rw [if_pos ha, if_neg hmem]
    rw [hstep, ih (s0 ++ [a]) (fun x hx => hne x (List.mem_cons_of_mem _ hx))
      (by simpa using hnd)]
    simp

/-- The insertion-ordered key set equals the spec's first-occurrence list. -/
theorem extractImagesKeys_eq_spec (d : Deployment) :
    extractImagesKeys d = specFirstOccurrenceImages d := by
  have step : ∀ (cs : List Container) (s0 : List String),
      collectContainerImages cs s0 =
        ((cs.map Container.image).filter (fun s => decide (s ≠ ""))).foldl goMapInsert s0 := by
    intro cs
    induction cs with
    | nil => intro s0; rfl
    | cons c cs ih =>
      intro s0
      rw [collectContainerImages_cons]
      unfold collectStep
      by_cases hc : c.image ≠ ""
      · rw [if_pos hc]
        simp only [List.map_cons, List.filter_cons, decide_eq_true hc, List.foldl_cons]
        exact ih _
      · rw [if_neg hc]
        simp only [List.map_cons, List.filter_cons, decide_eq_false hc, List.foldl_cons]
        exact ih _
  unfold extractImagesKeys specFirstOccurrenceImages dedupFirst
  rw [List.map_append, List.filter_append, List.foldl_append, step, step]

/-- C1: `validateOutputFormat s` succeeds iff `s` is exactly one of the three
canonical lowercase enumeration values `"table"`, `"json"`, `"yaml"`
(case-sensitive); any other value, case variants included, is rejected with a
validation error. -/
theorem C1_validateOutputFormat_ok_iff (s : String) :
    (validateOutputFormat s = .ok () ↔ (s = "table" ∨ s = "json" ∨ s = "yaml")) ∧
    (¬ (s = "table" ∨ s = "json" ∨ s = "yaml") →
      validateOutputFormat s = .error (errUnsupportedFormat s)) := by
  constructor
  · constructor
    · intro h
      by_contra hc
      simp only [validateOutputFormat, if_neg hc] at h
      exact Except.noConfusion h
    · intro h
      simp [validateOutputFormat, if_pos h]
  · intro h
    simp [validateOutputFormat, if_neg h, errUnsupportedFormat]

/-- Concrete instance of `C1_validateOutputFormat_ok_iff`: the uppercase case
variant `"YAML"` is rejected with the validation error message. -/
theorem C1_validateOutputFormat_witness :
    validateOutputFormat "YAML" = .error (errUnsupportedFormat "YAML") :=
  (C1_validateOutputFormat_ok_iff "YAML").2 (by decide)

/-- C2: for every caller context, `TestConnection` passes the caller's context
unmodified to the limit-1 namespace listing call exactly when it already
carries a deadline no more than 10 seconds away, and otherwise passes a
derived context with a 10-second timeout; the listing call always carries
`Limit: 1`; and a caller context expiring in 3 seconds keeps its 3-second
deadline instead of being extended to 10 seconds. -/
theorem C2_testConnection_timeout_policy :
    (∀ ctx : GoContext, testConnectionPassedCtx ctx = specTestConnectionCtx ctx) ∧
    (∀ ctx : GoContext, ∀ r, ctx.remaining = some r → r ≤ tenSeconds →
      testConnectionListCall ctx = { ctx := ctx, limit := 1 }) ∧
    (∀ ctx : GoContext,
      (∀ r, ctx.remaining = some r → r > tenSeconds) ∨ ctx.remaining = none →
      testConnectionListCall ctx = { ctx := withTimeout ctx tenSeconds, limit := 1 }) ∧
    testConnectionListCall ⟨some threeSeconds⟩ = { ctx := ⟨some threeSeconds⟩, limit := 1 } := by
  refine ⟨?_, ?_, ?_, ?_⟩
  · intro ctx
    rcases ctx with ⟨_ | r⟩
    · rfl
    · simp only [testConnectionPassedCtx, specTestConnectionCtx]
      rcases le_or_lt r tenSeconds with h | h
      · rw [if_neg (not_lt.mpr h), if_pos h]
      · rw [if_pos h, if_neg (not_le.mpr h)]
  · intro ctx r hr hle
    rcases ctx with ⟨rem⟩
    cases hr
    simp only [testConnectionListCall, testConnectionPassedCtx, if_neg (not_lt.mpr hle)]
  · intro ctx h
    rcases ctx with ⟨_ | r⟩
    · rfl
    · rcases h with h | h
      · simp only [testConnectionListCall, testConnectionPassedCtx,
          if_pos (h r rfl)]
      · exact Option.noConfusion h
  · decide

/-- Concrete instance of `C2_testConnection_timeout_policy`: a context with a
3-second deadline is passed through unmodified. -/
theorem C2_testConnection_timeout_policy_witness :
    threeSeconds ≤ tenSeconds ∧
    testConnectionListCall ⟨some threeSeconds⟩ = { ctx := ⟨some threeSeconds⟩, limit := 1 } :=
  ⟨by decide,
    C2_testConnection_timeout_policy.2.1 ⟨some threeSeconds⟩ threeSeconds rfl (by decide)⟩

/-- C3: every possible result of `extractImages` is duplicate-free, contains
no empty string, and as a set is exactly the non-empty images of both
container lists; the set does not depend on which of the two lists supplied
which image; re-extracting from an already-deduplicated image list
reproduces it (idempotence); and on the spec's `[a, a, b, "", c]` example
the result set is exactly `{a, b, c}`. -/
theorem C3_extractImages_dedup :
    (∀ (d : Deployment) (out : List String), extractImagesCanProduce d out →
      out.Nodup ∧ (∀ s ∈ out, s ≠ "") ∧
      (∀ s, s ∈ out ↔
        (s ≠ "" ∧ ((∃ c ∈ podContainers d, c.image = s) ∨ (∃ c ∈ podInitContainers d, c.image = s)))) ∧
      extractImagesKeys (deploymentOfImages out) = out) ∧
    (∀ (d : Deployment) (s : String),
      s ∈ extractImagesKeys (swapContainerLists d) ↔ s ∈ extractImagesKeys d) ∧
    (∀ out : List String, extractImagesCanProduce exampleDeployment out →
      ∀ s, s ∈ out ↔ (s = "nginx:1.21" ∨ s = "redis:6.2" ∨ s = "postgres:13")) := by
  have keysNodup : ∀ d : Deployment, (extractImagesKeys d).Nodup := fun d =>
    nodup_collectContainerImages _ _ (nodup_collectContainerImages _ _ List.nodup_nil)
  refine ⟨?_, ?_, ?_⟩
  · intro d out h
    have hmem : ∀ s, s ∈ out ↔
        (s ≠ "" ∧ ((∃ c ∈ podContainers d, c.image = s) ∨ (∃ c ∈ podInitContainers d, c.image = s))) := by
      intro s
      rw [h.mem_iff, mem_extractImagesKeys]
    have hnodup : out.Nodup := h.symm.nodup (keysNodup d)
    have hne : ∀ s ∈ out, s ≠ "" := fun s hs => ((hmem s).mp hs).1
    refine ⟨hnodup, hne, hmem, ?_⟩
    have : extractImagesKeys (deploymentOfImages out) =
        collectContainerImages (out.map fun img => { name := "", image := img }) [] := by
      unfold extractImagesKeys deploymentOfImages podContainers podInitContainers
      rfl
    rw [this, collectContainerImages_fresh out [] hne (by simpa using hnodup)]
    rfl
  · intro d s
    rw [mem_extractImagesKeys, mem_extractImagesKeys]
    unfold swapContainerLists podContainers podInitContainers
    simp only
    constructor
    · rintro ⟨hx, h | h⟩
      · exact ⟨hx, Or.inr h⟩
      · exact ⟨hx, Or.inl h⟩
    · rintro ⟨hx, h | h⟩
      · exact ⟨hx, Or.inr h⟩
      · exact ⟨hx, Or.inl h⟩
  · intro out h s
    rw [h.mem_iff]
    have hkeys : extractImagesKeys exampleDeployment = ["nginx:1.21", "redis:6.2", "postgres:13"] := by
      decide
    rw [hkeys]
    simp

/-- Concrete instance of `C3_extractImages_dedup`: one admissible output on
the example deployment, whose members are exactly the three distinct
non-empty images. -/
theorem C3_extractImages_dedup_witness :
    extractImagesCanProduce exampleDeployment ["postgres:13", "nginx:1.21", "redis:6.2"] ∧
    (∀ s, s ∈ (["postgres:13", "nginx:1.21", "redis:6.2"] : List String) ↔
      (s = "nginx:1.21" ∨ s = "redis:6.2" ∨ s = "postgres:13")) :=
  ⟨by decide, C3_extractImages_dedup.2.2 _ (by decide)⟩

/-- C4 counterexample: on a deployment whose containers carry the images
`nginx:1.21` then `redis:6.2`, `extractImages` can return
`["redis:6.2", "nginx:1.21"]` as well as `["nginx:1.21", "redis:6.2"]`,
because `convertImageSetToSlice` ranges over a Go map whose iteration order
is unspecified; so the output sequence is neither deterministic nor
guaranteed to follow first-occurrence order. -/
theorem C4_extractImages_order_counterexample :
    extractImagesCanProduce orderDeployment ["redis:6.2", "nginx:1.21"] ∧
    extractImagesCanProduce orderDeployment ["nginx:1.21", "redis:6.2"] ∧
    specFirstOccurrenceImages orderDeployment = ["nginx:1.21", "redis:6.2"] ∧
    (["redis:6.2", "nginx:1.21"] : List String) ≠ ["nginx:1.21", "redis:6.2"] := by
  refine ⟨by decide, by decide, by decide, by decide⟩

/-- C4 amended: the possible outputs of `extractImages` are exactly the
permutations of the first-occurrence-ordered list of distinct non-empty
images, so the image set (though not the sequence) is a deterministic
function of the deployment. -/
theorem C4_extractImages_order_amended (d : Deployment) (out : List String) :
    extractImagesCanProduce d out ↔ out.Perm (specFirstOccurrenceImages d) := by
  unfold extractImagesCanProduce
  rw [extractImagesKeys_eq_spec]

/-- A valid namespace character is ASCII, hence one UTF-8 byte. -/
theorem utf8Size_of_validNamespaceChar {r : Char} (h : isValidNamespaceChar r = true) :
    r.utf8Size = 1 := by
  have hval : r.val.toNat ≤ 122 := by
    unfold isValidNamespaceChar at h
    simp only [Bool.or_eq_true, Bool.and_eq_true, decide_eq_true_eq, beq_iff_eq] at h
    rcases h with (⟨_, h2⟩ | ⟨_, h2⟩) | rfl
    · have := Char.le_def.mp h2
      rw [UInt32.le_def, BitVec.le_def] at this
      simpa using this
    · have h3 : r.val.toNat ≤ 57 := by
        have := Char.le_def.mp h2
        rw [UInt32.le_def, BitVec.le_def] at this
        simpa using this
      omega
    · decide
  unfold Char.utf8Size
  rw [if_pos]
  rw [UInt32.le_def, BitVec.le_def]
  show r.val.toNat ≤ _
  have : (UInt32.ofNatCore 127 Char.utf8Size.proof_1).toBitVec.toNat = 127 := by decide
  omega

/-- A character list has at least as many UTF-8 bytes as characters. -/
theorem length_le_goByteLen : ∀ l : List Char, l.length ≤ goByteLen l
  | [] => Nat.le_refl 0
  | c :: cs => by
    have := length_le_goByteLen cs
    have := Char.utf8Size_pos c
    show cs.length + 1 ≤ c.utf8Size + goByteLen cs
    omega

/-- A character list with zero UTF-8 bytes is empty. -/
theorem goByteLen_eq_zero {l : List Char} : goByteLen l = 0 ↔ l = [] := by
  cases l with
  | nil => simp [goByteLen]
  | cons c cs =>
    have := Char.utf8Size_pos c
    simp only [goByteLen]
    constructor
    · intro h; omega
    · intro h; exact List.noConfusion h

/-- A character list of valid namespace characters has one byte per character. -/
theorem goByteLen_eq_length {l : List Char} (h : ∀ c ∈ l, isValidNamespaceChar c = true) :
    goByteLen l = l.length := by
  induction l with
  | nil => rfl
  | cons c cs ih =>
    show c.utf8Size + goByteLen cs = cs.length + 1
    rw [utf8Size_of_validNamespaceChar (h c (List.mem_cons_self _ _)),
      ih (fun x hx => h x (List.mem_cons_of_mem _ hx))]
    omega

/-- Unfolding the byte-offset scan over a cons cell. -/
theorem scanNamespaceChars_cons (r : Char) (rest : List Char) (i total : Nat) :
    scanNamespaceChars (r :: rest) i total =
      if ¬ isValidNamespaceChar r then .error (errNsInvalidChar r)
      else if r = '-' ∧ (i = 0 ∨ i = total - 1) then .error errNsHyphen
      else scanNamespaceChars rest (i + r.utf8Size) total :=
  rfl

/-- Unfolding the character-position scan over a cons cell. -/
theorem specScanNamespaceChars_cons (r : Char) (rest : List Char) (j n : Nat) :
    specScanNamespaceChars (r :: rest) j n =
      if ¬ isValidNamespaceChar r then .error (errNsInvalidChar r)
      else if r = '-' ∧ (j = 0 ∨ j = n - 1) then .error errNsHyphen
      else specScanNamespaceChars rest (j + 1) n :=
  rfl

/-- The byte-offset scan of `validateNamespaceCharacters` agrees with the
character-position scan: within the prefix already scanned without error
all characters are single-byte, so offsets and positions coincide. -/
theorem scanNamespaceChars_eq_spec :
    ∀ (l : List Char) (i j total n : Nat),
      i + goByteLen l = total → j + l.length = n → (i = 0 ↔ j = 0) →
      scanNamespaceChars l i total = specScanNamespaceChars l j n := by
  intro l
  induction l with
  | nil => intros; rfl
  | cons r rest ih =>
    intro i j total n hi hj h0
    by_cases hv : isValidNamespaceChar r
    · have hsize : r.utf8Size = 1 := utf8Size_of_validNamespaceChar hv
      have hrest₁ : i + 1 + goByteLen rest = total := by
        rw [goByteLen] at hi; omega
      have hrest₂ : j + 1 + rest.length = n := by
        rw [List.length_cons] at hj; omega
      have hedge : (i = 0 ∨ i = total - 1) ↔ (j = 0 ∨ j = n - 1) := by
        have hlast : i = total - 1 ↔ rest = [] := by
          constructor
          · intro h
            rw [← goByteLen_eq_zero]
            omega
          · intro h
            subst h
            simp only [goByteLen] at hrest₁
            omega
        have hlast' : j = n - 1 ↔ rest = [] := by
          constructor
          · intro h
            rw [← List.length_eq_zero]
            omega
          · intro h
            subst h
            simp only [List.length_nil] at hrest₂
            omega
        rw [hlast, hlast', h0]
      have e1 : scanNamespaceChars (r :: rest) i total =
          if r = '-' ∧ (i = 0 ∨ i = total - 1) then .error errNsHyphen
          else scanNamespaceChars rest (i + r.utf8Size) total := by
        rw [scanNamespaceChars_cons, if_neg (by simp [hv])]
      have e2 : specScanNamespaceChars (r :: rest) j n =
          if r = '-' ∧ (j = 0 ∨ j = n - 1) then .error errNsHyphen
          else specScanNamespaceChars rest (j + 1) n := by
        rw [specScanNamespaceChars_cons, if_neg (by simp [hv])]
      rw [e1, e2]
      by_cases hh : r = '-' ∧ (j = 0 ∨ j = n - 1)
      · rw [if_pos hh, if_pos ⟨hh.1, hedge.mpr hh.2⟩]
      · rw [if_neg hh, if_neg (fun hc => hh ⟨hc.1, hedge.mp hc.2⟩), hsize]
        exact ih (i + 1) (j + 1) total n hrest₁ hrest₂ (by omega)
    · have e1 : scanNamespaceChars (r :: rest) i total = .error (errNsInvalidChar r) := by
        rw [scanNamespaceChars_cons, if_pos (by simp [hv])]
      have e2 : specScanNamespaceChars (r :: rest) j n = .error (errNsInvalidChar r) := by
        rw [specScanNamespaceChars_cons, if_pos (by simp [hv])]
      rw [e1, e2]

/-- The character-position scan succeeds exactly when every position is
unobjectionable. -/
theorem specScanNamespaceChars_ok_iff :
    ∀ (l : List Char) (j n : Nat),
      specScanNamespaceChars l j n = .ok () ↔
        ∀ k (hk : k < l.length), nsPosOk n (j + k) (l.get ⟨k, hk⟩) := by
  intro l
  induction l with
  | nil =>
    intro j n
    simp [specScanNamespaceChars]
  | cons r rest ih =>
    intro j n
    by_cases hv : isValidNamespaceChar r
    · by_cases hh : r = '-' ∧ (j = 0 ∨ j = n - 1)
      · have e : specScanNamespaceChars (r :: rest) j n = .error errNsHyphen := by
          rw [specScanNamespaceChars_cons, if_neg (by simp [hv]), if_pos hh]
        rw [e]
        constructor
        · intro h; exact Except.noConfusion h
        · intro h
          have h0 : nsPosOk n (j + 0) r := h 0 (by simp)
          rcases hh with ⟨hr, he⟩
          rcases (h0.2 hr) with ⟨hne0, hnel⟩
          simp only [Nat.add_zero] at hne0 hnel
          rcases he with he | he
          · exact absurd he hne0
          · exact absurd he hnel
      · have e : specScanNamespaceChars (r :: rest) j n =
            specScanNamespaceChars rest (j + 1) n := by
          rw [specScanNamespaceChars_cons, if_neg (by simp [hv]), if_neg hh]
        rw [e, ih (j + 1) n]
        constructor
        · intro h k hk
          match k, hk with
          | 0, hk =>
            show nsPosOk n (j + 0) r
            refine ⟨hv, fun hr => ?_⟩
            rw [Nat.add_zero]
            constructor
            · intro h0
              exact hh ⟨hr, Or.inl h0⟩
            · intro hl
              exact hh ⟨hr, Or.inr hl⟩
          | k + 1, hk =>
            show nsPosOk n (j + (k + 1)) (rest.get ⟨k, _⟩)
            have := h k (by simpa using Nat.lt_of_succ_lt_succ hk)
            rwa [show j + 1 + k = j + (k + 1) by omega] at this
        · intro h k hk
          have h' : nsPosOk n (j + (k + 1)) (rest.get ⟨k, hk⟩) :=
            h (k + 1) (by simpa using Nat.succ_lt_succ hk)
          rwa [show j + (k + 1) = j + 1 + k by omega] at h'
    · have e : specScanNamespaceChars (r :: rest) j n = .error (errNsInvalidChar r) := by
        rw [specScanNamespaceChars_cons, if_pos (by simp [hv])]
      rw [e]
      constructor
      · intro h; exact Except.noConfusion h
      · intro h
        have h0 : nsPosOk n (j + 0) r := h 0 (by simp)
        exact absurd h0.1 hv

/-- The character-position scan skips a prefix of unobjectionable positions. -/
theorem specScanNamespaceChars_append :
    ∀ (pre tail : List Char) (j n : Nat),
      (∀ k (hk : k < pre.length), nsPosOk n (j + k) (pre.get ⟨k, hk⟩)) →
      specScanNamespaceChars (pre ++ tail) j n =
        specScanNamespaceChars tail (j + pre.length) n := by
  intro pre
  induction pre with
  | nil => intro tail j n _; simp
  | cons r pre' ih =>
    intro tail j n h
    have h0 : nsPosOk n (j + 0) r := h 0 (by simp)
    rw [List.cons_append, specScanNamespaceChars_cons, if_neg (by simp [h0.1]),
      if_neg (by
        rintro ⟨hr, he⟩
        rcases (h0.2 hr) with ⟨hne0, hnel⟩
        simp only [Nat.add_zero] at hne0 hnel
        rcases he with he | he
        · exact hne0 he
        · exact hnel he)]
    rw [ih tail (j + 1) n (fun k hk => by
      have h' : nsPosOk n (j + (k + 1)) (pre'.get ⟨k, hk⟩) :=
        h (k + 1) (by simpa using Nat.succ_lt_succ hk)
      rwa [show j + (k + 1) = j + 1 + k by omega] at h')]
    rw [List.length_cons]
    congr 1
    omega

/-- For a nonempty character list, all positions are unobjectionable exactly
when every character is valid and neither the first nor the last character
is a hyphen. -/
theorem nsPosOk_all_iff (l : List Char) (hl : l ≠ []) :
    (∀ k (hk : k < l.length), nsPosOk l.length k (l.get ⟨k, hk⟩)) ↔
      ((∀ c ∈ l, isValidNamespaceChar c = true) ∧
        l.head? ≠ some '-' ∧ l.getLast? ≠ some '-') := by
  have hpos : 0 < l.length := List.length_pos.mpr hl
  constructor
  · intro h
    refine ⟨?_, ?_, ?_⟩
    · intro c hc
      rcases List.mem_iff_get.mp hc with ⟨⟨k, hk⟩, rfl⟩
      exact (h k hk).1
    · cases l with
      | nil => simp
      | cons a t =>
        simp only [List.head?_cons, ne_eq, Option.some.injEq]
        intro ha
        have h0 : nsPosOk (a :: t).length (0 : Nat) a := h 0 (by simp)
        exact (h0.2 ha).1 rfl
    · rw [List.getLast?_eq_get?, List.get?_eq_get (by omega : l.length - 1 < l.length)]
      simp only [ne_eq, Option.some.injEq]
      intro hlast
      exact ((h (l.length - 1) (by omega)).2 hlast).2 rfl
  · rintro ⟨hall, hhead, hlast⟩ k hk
    refine ⟨hall _ (List.get_mem _ _ _), fun hc => ⟨?_, ?_⟩⟩
    · intro h0
      subst h0
      apply hhead
      cases l with
      | nil => exact absurd hk (by simp)
      | cons a t =>
        have hc' : a = '-' := hc
        rw [List.head?_cons, hc']
    · intro hlen
      apply hlast
      subst hlen
      rw [List.getLast?_eq_get?, List.get?_eq_get (by omega : l.length - 1 < l.length)]
      exact congrArg some hc

/-- C5: `validateNamespace` accepts the empty string; otherwise it succeeds
iff the name has at most 63 characters, every character is a lowercase
letter, digit or hyphen, and neither the first nor the last character is a
hyphen; when several rules are violated, the reported reason is determined
by the first violation encountered — the length check first, then a
left-to-right character scan in which each position's character-validity
check precedes its hyphen-placement check. -/
theorem C5_validateNamespace_rules (ns : String) :
    (validateNamespace ns = .ok () ↔
      (ns = "" ∨ (ns.toList.length ≤ 63 ∧
        (∀ c ∈ ns.toList, isValidNamespaceChar c = true) ∧
        ns.toList.head? ≠ some '-' ∧ ns.toList.getLast? ≠ some '-'))) ∧
    (ns ≠ "" → goByteLen ns.toList > 63 → validateNamespace ns = .error errNsTooLong) ∧
    (∀ pre r post, ns.toList = pre ++ r :: post → goByteLen ns.toList ≤ 63 →
      (∀ k (hk : k < pre.length), nsPosOk ns.toList.length k (pre.get ⟨k, hk⟩)) →
      (isValidNamespaceChar r = false → validateNamespace ns = .error (errNsInvalidChar r)) ∧
      (isValidNamespaceChar r = true → r = '-' →
        (pre.length = 0 ∨ pre.length = ns.toList.length - 1) →
        validateNamespace ns = .error errNsHyphen)) := by
  by_cases hns : ns = ""
  · subst hns
    refine ⟨?_, ?_, ?_⟩
    · simp [validateNamespace]
    · intro h; exact absurd rfl h
    · intro pre r post hEq
      exact absurd hEq.symm (by simp)
  · have hned : ns.toList ≠ [] := by
      intro h
      exact hns (String.ext h)
    unfold validateNamespace
    rw [if_neg hns]
    by_cases hlen : goByteLen ns.toList > 63
    · rw [if_pos hlen]
      refine ⟨?_, fun _ _ => rfl, ?_⟩
      · constructor
        · intro h; exact Except.noConfusion h
        · rintro (h | ⟨hl, hv, _, _⟩)
          · exact absurd h hns
          · rw [goByteLen_eq_length hv] at hlen
            omega
      · intro pre r post _ hle
        exact absurd hle (by omega)
    · rw [if_neg hlen]
      rw [scanNamespaceChars_eq_spec ns.toList 0 0 (goByteLen ns.toList) ns.toList.length
        (by omega) (by omega) Iff.rfl]
      refine ⟨?_, fun _ h => absurd h hlen, ?_⟩
      · rw [specScanNamespaceChars_ok_iff]
        simp only [Nat.zero_add]
        rw [or_iff_right hns,
          and_iff_right (le_trans (length_le_goByteLen ns.toList) (by omega))]
        exact nsPosOk_all_iff ns.toList hned
      · intro pre r post hEq _ hpre
        rw [hEq]
        rw [specScanNamespaceChars_append pre (r :: post) 0 (pre ++ r :: post).length
          (fun k hk => by
            have h' := hpre k hk
            rw [hEq] at h'
            simpa using h')]
        constructor
        · intro hinv
          rw [specScanNamespaceChars_cons, if_pos (by simp [hinv])]
        · intro hv hr hedge
          rw [specScanNamespaceChars_cons, if_neg (by simp [hv]),
            if_pos ⟨hr, by simpa using hedge⟩]

/-- Concrete instance of `C5_validateNamespace_rules`: the first violation in
`"a_b"` is the invalid character at position 1, and that is the reported
reason. -/
theorem C5_validateNamespace_rules_witness :
    validateNamespace "a_b" = .error (errNsInvalidChar '_') :=
  (((C5_validateNamespace_rules "a_b").2.2 ['a'] '_' ['b']
    (by decide) (by decide) (by decide)).1) (by decide)

/-- C6: both structured formats build the same fixed envelope, whose `kind`
is `"DeploymentList"`, whose `apiVersion` is `"apps/v1"`, whose `items` are
exactly the input records in order, and whose `count` equals the number of
items; the two formats differ only in the serialization applied afterwards. -/
theorem C6_structured_envelope (ds : List DeploymentInfo) :
    formatDeploymentJSONEnvelope ds = formatDeploymentYAMLEnvelope ds ∧
    (formatDeploymentJSONEnvelope ds).kind = "DeploymentList" ∧
    (formatDeploymentJSONEnvelope ds).apiVersion = "apps/v1" ∧
    (formatDeploymentJSONEnvelope ds).items = ds ∧
    (formatDeploymentJSONEnvelope ds).count = ds.length ∧
    (formatDeploymentYAMLEnvelope ds).count = (formatDeploymentYAMLEnvelope ds).items.length :=
  ⟨rfl, rfl, rfl, rfl, rfl, rfl⟩

/-- A character list starts with itself extended by anything. -/
theorem leadMatch_append : ∀ (a b : List Char), leadMatch a (a ++ b) = true
  | [], _ => rfl
  | p :: ps, b => by
    show (p == p && leadMatch ps (ps ++ b)) = true
    rw [leadMatch_append ps b]
    simp

/-- Every character list contains the empty run. -/
theorem charsContains_nil : ∀ s : List Char, charsContains s [] = true
  | [] => rfl
  | _ :: _ => by
    show (leadMatch [] _ || _) = true
    rw [show leadMatch [] _ = true from rfl]
    simp

/-- Containment is preserved by extra leading characters. -/
theorem charsContains_cons {rest sub : List Char} (c : Char)
    (h : charsContains rest sub = true) : charsContains (c :: rest) sub = true := by
  show (leadMatch sub (c :: rest) || charsContains rest sub) = true
  rw [h]
  simp

/-- A character list starts with itself. -/
theorem leadMatch_self : ∀ a : List Char, leadMatch a a = true
  | [] => rfl
  | p :: ps => by
    show (p == p && leadMatch ps ps) = true
    rw [leadMatch_self ps]
    simp

/-- A concatenation contains its second part. -/
theorem charsContains_append_right : ∀ (a b : List Char), charsContains (a ++ b) b = true
  | [], b => by
    cases b with
    | nil => rfl
    | cons c cs =>
      show (leadMatch (c :: cs) (c :: cs) || _) = true
      rw [leadMatch_self]
      simp
  | c :: as, b => charsContains_cons c (charsContains_append_right as b)

/-- A concatenation contains its first part. -/
theorem charsContains_append_left : ∀ (a b : List Char), charsContains (a ++ b) a = true
  | [], b => charsContains_nil b
  | c :: as, b => by
    show (leadMatch (c :: as) (c :: (as ++ b)) || _) = true
    have : leadMatch (c :: as) ((c :: as) ++ b) = true := leadMatch_append (c :: as) b
    rw [List.cons_append] at this
    rw [this]
    simp

/-- Appending strings appends their character lists. -/
theorem string_toList_append (s t : String) : (s ++ t).toList = s.toList ++ t.toList :=
  String.data_append s t

/-- A string concatenation contains its right part. -/
theorem goContains_append_right (p e : String) : goContains (p ++ e) e = true := by
  unfold goContains
  rw [string_toList_append]
  exact charsContains_append_right _ _

/-- A string concatenation contains its left part. -/
theorem goContains_append_left (p e : String) : goContains (p ++ e) p = true := by
  unfold goContains
  rw [string_toList_append]
  exact charsContains_append_left _ _

/-- C7: every branch of the error classification wraps the original error
message; when the message indicates not-found (and matches no earlier
category) and a specific namespace was requested, the classified message
contains `namespace '<ns>' not found`; and with no namespace requested the
not-found rewriting never applies — the result is the connection-refused,
forbidden, or generic wrapping. -/
theorem C7_error_classification (ns orig : String) :
    goContains (enhanceK8sError ns orig) orig = true ∧
    (goContains orig "connection refused" = false →
      goContains orig "forbidden" = false →
      goContains orig "not found" = true →
      ns ≠ "" →
      goContains (enhanceK8sError ns orig) ("namespace '" ++ ns ++ "' not found") = true) ∧
    enhanceK8sError "" orig =
      (if goContains orig "connection refused" then errConnRefused orig
       else if goContains orig "forbidden" then errForbidden orig
       else errGenericList orig) := by
  refine ⟨?_, ?_, ?_⟩
  · unfold enhanceK8sError
    split
    · exact goContains_append_right _ orig
    · split
      · exact goContains_append_right _ orig
      · split
        · exact goContains_append_right _ orig
        · exact goContains_append_right _ orig
  · intro h1 h2 h3 h4
    unfold enhanceK8sError
    rw [if_neg (by simp [h1]), if_neg (by simp [h2]),
      if_pos (by simp [h3, bne_iff_ne, h4])]
    have hmsg : errNsNotFound ns orig =
        ("namespace '" ++ ns ++ "' not found") ++ (": " ++ orig) := by
      unfold errNsNotFound
      rw [show ("' not found: " : String) = "' not found" ++ ": " by decide]
      rw [← String.append_assoc ("namespace '" ++ ns) "' not found" ": ",
        String.append_assoc ("namespace '" ++ ns ++ "' not found") ": " orig]
    rw [hmsg]
    exact goContains_append_left _ _
  · unfold enhanceK8sError
    rw [if_neg (c := (goContains orig "not found" && ("" : String) != "") = true) (by simp)]

/-- Concrete instance of `C7_error_classification`: a not-found API failure
with namespace `missing-ns` is rewritten to name that namespace. -/
theorem C7_error_classification_witness :
    goContains (enhanceK8sError "missing-ns" "namespaces not found")
      ("namespace '" ++ "missing-ns" ++ "' not found") = true :=
  (C7_error_classification "missing-ns" "namespaces not found").2.1
    (by decide) (by decide) (by decide) (by decide)

/-- C8: an input rejected by `validateOutputFormat` or `validateNamespace`
makes `runListDeployments` return the validation error with an empty
side-effect trace — no client construction, no API call, no rendering; the
output format is checked before the namespace; and any run that performed
any side effect had passed both validations. -/
theorem C8_validation_before_io (format ns : String) (o : K8sOracle) :
    (∀ e, validateOutputFormat format = .error e →
      runListDeployments format ns o = (.error ("invalid output format: " ++ e), [])) ∧
    (validateOutputFormat format = .ok () →
      ∀ e, validateNamespace ns = .error e →
        runListDeployments format ns o = (.error ("invalid namespace: " ++ e), [])) ∧
    (∀ res trace, runListDeployments format ns o = (res, trace) → trace ≠ [] →
      validateListParameters format ns = .ok ()) := by
  refine ⟨?_, ?_, ?_⟩
  · intro e he
    unfold runListDeployments validateListParameters
    rw [he]
  · intro hfmt e hns
    unfold runListDeployments validateListParameters
    rw [hfmt, hns]
  · intro res trace hrun htrace
    rcases hv : validateListParameters format ns with e | u
    · rw [show runListDeployments format ns o = (.error e, []) from by
        unfold runListDeployments; rw [hv]] at hrun
      cases hrun
      exact absurd rfl htrace
    · cases u
      rfl

/-- Concrete instance of `C8_validation_before_io`: the rejected format
`"xml"` is returned as a validation error before any side effect. -/
theorem C8_validation_before_io_witness :
    validateOutputFormat "xml" = .error (errUnsupportedFormat "xml") ∧
    runListDeployments "xml" "prod" sampleOracle =
      (.error ("invalid output format: " ++ errUnsupportedFormat "xml"), []) :=
  ⟨by decide,
    (C8_validation_before_io "xml" "prod" sampleOracle).1 (errUnsupportedFormat "xml") (by decide)⟩

/-- C9: for any byte string and any requested maximum `m ≥ 0`,
`truncateString` never slices out of range; it returns the string unchanged
when it fits, and otherwise a string of at most `m` bytes which ends in the
appended `"..."` when `m > 3` and is the bare hard-cut prefix when `m ≤ 3`. -/
theorem C9_truncateString_bounds (s : GoBytes) (m : Int) (hm : 0 ≤ m) :
    ∃ r, truncateString s m = some r ∧
      ((s.length : Int) ≤ m → r = s) ∧
      (m < (s.length : Int) →
        (r.length : Int) ≤ m ∧
        (3 < m → ∃ p, r = p ++ ellipsisBytes) ∧
        (m ≤ 3 → r = s.take m.toNat)) := by
  unfold truncateString
  by_cases h1 : (s.length : Int) ≤ m
  · rw [if_pos h1]
    exact ⟨s, rfl, fun _ => rfl, fun hlt => absurd h1 (not_le.mpr hlt)⟩
  · rw [if_neg h1]
    by_cases h2 : m ≤ 3
    · rw [if_pos h2]
      unfold goSliceTo
      rw [if_pos ⟨hm, by omega⟩]
      refine ⟨s.take m.toNat, rfl, fun hc => absurd hc h1, fun _ => ⟨?_, ?_, fun _ => rfl⟩⟩
      · have := List.length_take m.toNat s
        omega
      · intro h3
        exact absurd h2 (by omega)
    · rw [if_neg h2]
      unfold goSliceTo
      rw [if_pos ⟨by omega, by omega⟩]
      refine ⟨s.take (m - 3).toNat ++ ellipsisBytes, rfl, fun hc => absurd hc h1,
        fun _ => ⟨?_, fun _ => ⟨s.take (m - 3).toNat, rfl⟩, fun hc => absurd hc h2⟩⟩
      have hlt : (List.take (m - 3).toNat s).length = (m - 3).toNat := by
        have := List.length_take (m - 3).toNat s
        omega
      have hell : ellipsisBytes.length = 3 := by decide
      rw [List.length_append, hlt, hell]
      omega

/-- Concrete instance of `C9_truncateString_bounds`: a 35-byte image
reference truncated to 10 bytes. -/
theorem C9_truncateString_bounds_witness :
    0 ≤ (10 : Int) ∧
    ∃ r, truncateString sampleImageBytes 10 = some r ∧
      ((sampleImageBytes.length : Int) ≤ 10 → r = sampleImageBytes) ∧
      (10 < (sampleImageBytes.length : Int) →
        (r.length : Int) ≤ 10 ∧
        (3 < (10 : Int) → ∃ p, r = p ++ ellipsisBytes) ∧
        ((10 : Int) ≤ 3 → r = sampleImageBytes.take (10 : Int).toNat)) :=
  ⟨by decide, C9_truncateString_bounds sampleImageBytes 10 (by decide)⟩

/-- C10: the table formatter renders the IMAGES cell of a record with no
images as the literal placeholder: `formatImages` on the empty list returns
`"<none>"`. -/
theorem C10_formatImages_empty_placeholder :
    formatImages [] = some noneBytes ∧ noneBytes = strBytes "<none>" :=
  ⟨rfl, rfl⟩

end K8sController
